import Mathlib

/-!
Verification of the matching-engine core against its specification.

The definitions below are a shallow embedding of the C++ sources:
`src/order_book.cpp`, `src/stop_order_manager.cpp`, `src/wal.cpp`,
`src/server.cpp` (the POST /orders, POST /orders/stop and DELETE handlers)
and `src/main.cpp` (`replay_wal`).  C++ `long long` values are modelled as
`Int` (no claim under scrutiny depends on 64-bit overflow), `std::string`
as `String`, ordered `std::map`/`std::multimap` as sorted association
lists, and `std::unordered_map` as association lists.  Division on
`long long` is modelled with `Int.tdiv` (truncation toward zero).
-/

namespace MatchingEngine

/-- Fee configuration used by `OrderBook::calculate_fees`.  The struct's
declaration is not among the sources under inspection; the two basis-point
fields are taken from their uses in `order_book.cpp` and
`tests/test_order_book.cpp`. -/
structure FeeConfig where
  maker_fee_bps : Int
  taker_fee_bps : Int
deriving DecidableEq, Repr

/-- `Order` from `include/order.h` (the wall-clock timestamp is omitted:
no claim depends on it). -/
structure Order where
  order_id : String
  symbol : String
  order_type : String
  side : String
  quantity : Int
  price : Int
deriving DecidableEq, Repr

/-- `Trade` from `include/order_book.h`, plus the `maker_fee`/`taker_fee`
fields assigned by `OrderBook::calculate_fees` (the ISO timestamp is
omitted: no claim depends on it). -/
structure Trade where
  trade_id : String
  symbol : String
  price : Int
  quantity : Int
  aggressor_side : String
  maker_order_id : String
  taker_order_id : String
  maker_fee : Int
  taker_fee : Int
deriving DecidableEq, Repr

/-- `make_trade_id` in `order_book.cpp`: `"T-" << counter.fetch_add(1)`.
The global atomic counter is threaded explicitly through the matching
functions. -/
def mkTradeId (tc : Nat) : String := "T-" ++ toString tc

/-- `OrderBook::calculate_fees`:
`notional = (price * quantity) / 100000000LL`, then
`maker_fee = notional * maker_fee_bps / 10000` and likewise for the taker. -/
def calculateFees (fee : FeeConfig) (t : Trade) : Trade :=
  let notional : Int := (t.price * t.quantity).tdiv 100000000
  { t with maker_fee := (notional * fee.maker_fee_bps).tdiv 10000,
           taker_fee := (notional * fee.taker_fee_bps).tdiv 10000 }

/-- Construction of one `Trade` inside the matching loop of
`OrderBook::add_order`. -/
def mkTrade (sym : String) (fee : FeeConfig) (aggr : Order) (lvlPrice : Int)
    (qty : Int) (makerId : String) (tc : Nat) : Trade :=
  calculateFees fee
    { trade_id := mkTradeId tc, symbol := sym, price := lvlPrice, quantity := qty,
      aggressor_side := aggr.side, maker_order_id := makerId,
      taker_order_id := aggr.order_id, maker_fee := 0, taker_fee := 0 }

/-- The book's `order_index_`: `order_id -> (price, is_buy)`. -/
abbrev OrderIndex := List (String × Int × Bool)

/-- `order_index_.erase(id)`. -/
def idxErase (idx : OrderIndex) (id : String) : OrderIndex :=
  idx.filter (fun e => e.1 ≠ id)

/-- `order_index_[id] = v` (unordered_map assignment overwrites). -/
def idxInsert (idx : OrderIndex) (id : String) (v : Int × Bool) : OrderIndex :=
  (id, v) :: idxErase idx id

/-- `order_index_.find(id)`. -/
def idxLookup (idx : OrderIndex) (id : String) : Option (Int × Bool) :=
  (idx.find? (fun e => e.1 = id)).map (·.2)

/-- Result of the inner (per-level) matching loop. -/
structure QMatch where
  trades : List Trade
  queue : List Order
  remaining : Int
  tc : Nat
  idx : OrderIndex
deriving DecidableEq, Repr

/-- The inner `while (remaining > 0 && !q.empty())` loop of
`OrderBook::add_order`: consume makers from the front of the level's deque;
each match is one trade at the level price for `min(remaining, maker.quantity)`;
a partially filled maker is pushed back to the front (at that point
`remaining` has dropped to `0`, so the source loop exits at its next
condition check); a fully consumed maker is dropped and erased from the
id-index. -/
def matchQueue (sym : String) (fee : FeeConfig) (aggr : Order) (lvlPrice : Int) :
    List Order → Int → Nat → OrderIndex → QMatch
  | [], remaining, tc, idx => ⟨[], [], remaining, tc, idx⟩
  | maker :: rest, remaining, tc, idx =>
    if remaining ≤ 0 then ⟨[], maker :: rest, remaining, tc, idx⟩
    else
      let tq := min remaining maker.quantity
      let tr := mkTrade sym fee aggr lvlPrice tq maker.order_id tc
      if 0 < maker.quantity - tq then
        ⟨[tr], { maker with quantity := maker.quantity - tq } :: rest,
         remaining - tq, tc + 1, idx⟩
      else
        let r := matchQueue sym fee aggr lvlPrice rest (remaining - tq) (tc + 1)
          (idxErase idx maker.order_id)
        ⟨tr :: r.trades, r.queue, r.remaining, r.tc, r.idx⟩

/-- Result of the outer matching loop over price levels. -/
structure BMatch where
  trades : List Trade
  levels : List (Int × List Order)
  remaining : Int
  tc : Nat
  idx : OrderIndex
deriving DecidableEq, Repr

/-- The outer `while (remaining > 0 && !book_map.empty())` loop
(`match_against_book` in `OrderBook::add_order`).  The price constraint is
checked only for `order_type == "limit"`.  A level emptied by matching is
erased; a level left non-empty means `remaining` reached `0`, so the source
loop exits with the level retained. -/
def matchBook (sym : String) (fee : FeeConfig) (aggr : Order) (isBuy : Bool) :
    List (Int × List Order) → Int → Nat → OrderIndex → BMatch
  | [], remaining, tc, idx => ⟨[], [], remaining, tc, idx⟩
  | (lvlPrice, q) :: rest, remaining, tc, idx =>
    if remaining ≤ 0 then ⟨[], (lvlPrice, q) :: rest, remaining, tc, idx⟩
    else if aggr.order_type = "limit" ∧
        (if isBuy then aggr.price < lvlPrice else lvlPrice < aggr.price) then
      ⟨[], (lvlPrice, q) :: rest, remaining, tc, idx⟩
    else
      let r := matchQueue sym fee aggr lvlPrice q remaining tc idx
      if r.queue.isEmpty then
        let r2 := matchBook sym fee aggr isBuy rest r.remaining r.tc r.idx
        ⟨r.trades ++ r2.trades, r2.levels, r2.remaining, r2.tc, r2.idx⟩
      else
        ⟨r.trades, (lvlPrice, r.queue) :: rest, r.remaining, r.tc, r.idx⟩

/-- Inner loop of the FOK pre-check: accumulate available quantity at one
level, stopping early once the needed quantity is reached. -/
def fokScanQueue (need : Int) : List Order → Int → Int
  | [], fillable => fillable
  | o :: rest, fillable =>
    let f := fillable + o.quantity
    if need ≤ f then f else fokScanQueue need rest f

/-- Outer loop of the FOK pre-check in `OrderBook::add_order`: scan levels
in matching order, stopping at the first level violating the price
constraint (`order.price > 0 && price_level > order.price` for a buy,
mirrored for a sell) or once the accumulated quantity reaches
`order.quantity`. -/
def fokScanLevels (aggrPrice need : Int) (isBuy : Bool) :
    List (Int × List Order) → Int → Int
  | [], fillable => fillable
  | (lvlPrice, q) :: rest, fillable =>
    if 0 < aggrPrice ∧ (if isBuy then aggrPrice < lvlPrice else lvlPrice < aggrPrice) then
      fillable
    else
      let f := fokScanQueue need q fillable
      if need ≤ f then f else fokScanLevels aggrPrice need isBuy rest f

/-- Insert an order at the tail of its price level in an ascending level
list (`asks_[price].push_back(resting)` on `std::map<long long, deque>`),
creating the level if absent. -/
def pushLevelAsc (levels : List (Int × List Order)) (price : Int) (o : Order) :
    List (Int × List Order) :=
  match levels with
  | [] => [(price, [o])]
  | (p, q) :: rest =>
    if price < p then (price, [o]) :: (p, q) :: rest
    else if price = p then (p, q ++ [o]) :: rest
    else (p, q) :: pushLevelAsc rest price o

/-- Same for the descending bid map
(`std::map<long long, deque, std::greater>`). -/
def pushLevelDesc (levels : List (Int × List Order)) (price : Int) (o : Order) :
    List (Int × List Order) :=
  match levels with
  | [] => [(price, [o])]
  | (p, q) :: rest =>
    if p < price then (price, [o]) :: (p, q) :: rest
    else if price = p then (p, q ++ [o]) :: rest
    else (p, q) :: pushLevelDesc rest price o

/-- `OrderBook` from `include/order_book.h`: `bids_` is iterated in
descending price order and `asks_` in ascending order; both are modelled
as lists sorted in iteration order. -/
structure OrderBook where
  symbol : String
  bids : List (Int × List Order)
  asks : List (Int × List Order)
  order_index : OrderIndex
  fee : FeeConfig
deriving DecidableEq, Repr

/-- Result of `OrderBook::add_order` together with the threaded global
trade counter. -/
structure AddResult where
  trades : List Trade
  book : OrderBook
  tc : Nat
deriving DecidableEq, Repr

/-- The FOK pre-check value `fillable` computed at the top of
`OrderBook::add_order`. -/
def fokFillable (b : OrderBook) (o : Order) : Int :=
  fokScanLevels o.price o.quantity (o.side = "buy")
    (if o.side = "buy" then b.asks else b.bids) 0

/-- `OrderBook::add_order`.  FOK orders are pre-checked for full
fillability and rejected without side effects when the check fails;
matching then runs against the opposite side; IOC/FOK remainders are
discarded; a limit remainder rests on the aggressor's side and is indexed. -/
def addOrder (b : OrderBook) (o : Order) (tc : Nat) : AddResult :=
  let isBuy := o.side = "buy"
  if o.order_type = "fok" ∧ fokFillable b o < o.quantity then
    ⟨[], b, tc⟩
  else
    let r := matchBook b.symbol b.fee o isBuy (if isBuy then b.asks else b.bids)
      o.quantity tc b.order_index
    let b1 := if isBuy then { b with asks := r.levels, order_index := r.idx }
              else { b with bids := r.levels, order_index := r.idx }
    if o.order_type = "ioc" ∧ 0 < r.remaining then
      ⟨r.trades, b1, r.tc⟩
    else if o.order_type = "fok" then
      if 0 < r.remaining then ⟨[], b1, r.tc⟩ else ⟨r.trades, b1, r.tc⟩
    else if 0 < r.remaining ∧ o.order_type = "limit" then
      let resting := { o with quantity := r.remaining }
      let b2 := if isBuy then { b1 with bids := pushLevelDesc b1.bids o.price resting }
                else { b1 with asks := pushLevelAsc b1.asks o.price resting }
      ⟨r.trades, { b2 with order_index := idxInsert b2.order_index o.order_id (o.price, isBuy) }, r.tc⟩
    else
      ⟨r.trades, b1, r.tc⟩

/-- Erase the first order with the given id from a level's deque. -/
def eraseFirstById : List Order → String → List Order
  | [], _ => []
  | o :: rest, oid => if o.order_id = oid then rest else o :: eraseFirstById rest oid

/-- Membership test used by the cancel scan. -/
def queueHasId (q : List Order) (oid : String) : Bool :=
  (q.find? (fun x => x.order_id = oid)).isSome

/-- `std::map::find` on the level list. -/
def levelFind (levels : List (Int × List Order)) (price : Int) : Option (List Order) :=
  (levels.find? (fun l => l.1 = price)).map (·.2)

/-- Erase the level at `price`. -/
def levelErase (levels : List (Int × List Order)) (price : Int) :
    List (Int × List Order) :=
  levels.filter (fun l => l.1 ≠ price)

/-- Replace the deque stored at `price`. -/
def levelSet (levels : List (Int × List Order)) (price : Int) (q : List Order) :
    List (Int × List Order) :=
  levels.map (fun l => if l.1 = price then (l.1, q) else l)

/-- One side of `OrderBook::cancel_order`: locate the level, scan for the
id, erase the order, the index entry, and the level if emptied. -/
def cancelSide (levels : List (Int × List Order)) (idx : OrderIndex)
    (price : Int) (oid : String) :
    Option (List (Int × List Order) × OrderIndex) :=
  match levelFind levels price with
  | none => none
  | some q =>
    if queueHasId q oid then
      let q' := eraseFirstById q oid
      let levels' := if q'.isEmpty then levelErase levels price else levelSet levels price q'
      some (levels', idxErase idx oid)
    else none

/-- `OrderBook::cancel_order`. -/
def cancelOrder (b : OrderBook) (oid : String) : Bool × OrderBook :=
  match idxLookup b.order_index oid with
  | none => (false, b)
  | some (price, isBuy) =>
    if isBuy then
      match cancelSide b.bids b.order_index price oid with
      | none => (false, b)
      | some (bids', idx') => (true, { b with bids := bids', order_index := idx' })
    else
      match cancelSide b.asks b.order_index price oid with
      | none => (false, b)
      | some (asks', idx') => (true, { b with asks := asks', order_index := idx' })

/-- `StopOrderType` from `include/stop_order_manager.h`. -/
inductive StopOrderType
  | STOP_LOSS
  | STOP_LIMIT
  | TAKE_PROFIT
  | TRAILING_STOP
deriving DecidableEq, Repr

/-- `StopOrder` from `include/stop_order_manager.h` (the creation
timestamp and `user_id` are omitted: no claim depends on them). -/
structure StopOrder where
  order_id : String
  symbol : String
  stop_type : StopOrderType
  side : String
  trigger_price : Int
  limit_price : Int
  quantity : Int
  trail_amount : Int
  best_price : Int
deriving DecidableEq, Repr

/-- The manager's `order_index_`: `order_id -> trigger_price`. -/
abbrev StopIndex := List (String × Int)

/-- `order_index_.erase(id)` on the stop manager's index. -/
def sidxErase (idx : StopIndex) (id : String) : StopIndex :=
  idx.filter (fun e => e.1 ≠ id)

/-- `order_index_[id] = trigger` on the stop manager's index. -/
def sidxInsert (idx : StopIndex) (id : String) (trigger : Int) : StopIndex :=
  (id, trigger) :: sidxErase idx id

/-- `order_index_.find(id)` on the stop manager's index. -/
def sidxLookup (idx : StopIndex) (id : String) : Option Int :=
  (idx.find? (fun e => e.1 = id)).map (·.2)

/-- `StopOrderManager` from `include/stop_order_manager.h`.  Both
`buy_stops_` and `sell_stops_` are `std::multimap<long long, StopOrder>`
with the default comparator, so BOTH iterate in ascending `trigger_price`
order; they are modelled as lists sorted in that iteration order. -/
structure StopOrderManager where
  symbol : String
  buy_stops : List (Int × StopOrder)
  sell_stops : List (Int × StopOrder)
  order_index : StopIndex
  stop_counter : Nat
deriving DecidableEq, Repr

/-- `std::multimap::insert` on an ascending multimap: the new entry goes
after all entries with a key `≤` its own (upper-bound position). -/
def multiInsertAsc (entries : List (Int × StopOrder)) (key : Int) (v : StopOrder) :
    List (Int × StopOrder) :=
  match entries with
  | [] => [(key, v)]
  | (k, s) :: rest =>
    if key < k then (key, v) :: (k, s) :: rest
    else (k, s) :: multiInsertAsc rest key v

/-- `StopOrderManager::add_stop_order`: fill in a generated id when the
order carries none, initialise `best_price` for trailing stops, insert
keyed by `trigger_price`, and index the id. -/
def addStopOrder (m : StopOrderManager) (order : StopOrder) : String × StopOrderManager :=
  let genId := order.order_id = ""
  let stop1 := if genId then { order with order_id := "STOP-" ++ toString m.stop_counter }
               else order
  let counter' := if genId then m.stop_counter + 1 else m.stop_counter
  let stop := if stop1.stop_type = StopOrderType.TRAILING_STOP then
                { stop1 with best_price := stop1.trigger_price }
              else stop1
  let m1 := if stop.side = "buy" then
              { m with buy_stops := multiInsertAsc m.buy_stops stop.trigger_price stop,
                       stop_counter := counter' }
            else
              { m with sell_stops := multiInsertAsc m.sell_stops stop.trigger_price stop,
                       stop_counter := counter' }
  (stop.order_id, { m1 with order_index := sidxInsert m1.order_index stop.order_id stop.trigger_price })

/-- Erase (within the `equal_range` of `key`) the entry whose stop has the
given id; `none` when no such entry exists. -/
def eraseStopEntry : List (Int × StopOrder) → Int → String → Option (List (Int × StopOrder))
  | [], _, _ => none
  | (k, s) :: rest, key, oid =>
    if k = key ∧ s.order_id = oid then some rest
    else
      match eraseStopEntry rest key oid with
      | some r => some ((k, s) :: r)
      | none => none

/-- `StopOrderManager::cancel_stop_order`: look the trigger price up in
the id-index, then search the equal range in the buy map and then the sell
map. -/
def cancelStopOrder (m : StopOrderManager) (oid : String) : Bool × StopOrderManager :=
  match sidxLookup m.order_index oid with
  | none => (false, m)
  | some trigger =>
    match eraseStopEntry m.buy_stops trigger oid with
    | some bs => (true, { m with buy_stops := bs, order_index := sidxErase m.order_index oid })
    | none =>
      match eraseStopEntry m.sell_stops trigger oid with
      | some ss => (true, { m with sell_stops := ss, order_index := sidxErase m.order_index oid })
      | none => (false, m)

/-- Conversion of a triggered stop inside `check_triggers`: StopLimit
becomes a limit order at `limit_price`; every other kind becomes a market
order with price `0`. -/
def stopToOrder (stop : StopOrder) : Order :=
  if stop.stop_type = StopOrderType.STOP_LIMIT then
    { order_id := stop.order_id, symbol := stop.symbol, order_type := "limit",
      side := stop.side, quantity := stop.quantity, price := stop.limit_price }
  else
    { order_id := stop.order_id, symbol := stop.symbol, order_type := "market",
      side := stop.side, quantity := stop.quantity, price := 0 }

/-- One of the two trigger loops of `check_triggers`: walk the multimap
from its first entry, converting and removing entries while the map KEY
satisfies the trigger condition, and break at the first entry that does
not ("stops are sorted, no need to check further"). -/
def triggerLoop (cond : Int → Bool) :
    List (Int × StopOrder) → StopIndex → List Order × List (Int × StopOrder) × StopIndex
  | [], idx => ([], [], idx)
  | (k, s) :: rest, idx =>
    if cond k then
      let r := triggerLoop cond rest (sidxErase idx s.order_id)
      (stopToOrder s :: r.1, r.2.1, r.2.2)
    else ([], (k, s) :: rest, idx)

/-- `StopOrderManager::check_triggers(p)`: buy stops trigger while
`p ≥ key`, then sell stops trigger while `p ≤ key`; triggered orders are
returned buys first, each loop in its map's iteration order. -/
def checkTriggers (m : StopOrderManager) (p : Int) : List Order × StopOrderManager :=
  let rb := triggerLoop (fun k => decide (k ≤ p)) m.buy_stops m.order_index
  let rs := triggerLoop (fun k => decide (p ≤ k)) m.sell_stops rb.2.2
  (rb.1 ++ rs.1,
   { m with buy_stops := rb.2.1, sell_stops := rs.2.1, order_index := rs.2.2 })

/-- In-place update of one buy trailing stop inside
`update_trailing_stops` (tracks the lowest observed price). -/
def updTrailBuy (current : Int) (s : StopOrder) : StopOrder :=
  if s.stop_type = StopOrderType.TRAILING_STOP ∧ current < s.best_price then
    { s with best_price := current, trigger_price := current + s.trail_amount }
  else s

/-- In-place update of one sell trailing stop (tracks the highest observed
price). -/
def updTrailSell (current : Int) (s : StopOrder) : StopOrder :=
  if s.stop_type = StopOrderType.TRAILING_STOP ∧ s.best_price < current then
    { s with best_price := current, trigger_price := current - s.trail_amount }
  else s

/-- `StopOrderManager::update_trailing_stops`: the source mutates each
mapped `StopOrder` in place through a `const_cast`; the multimap KEY and
the id-index are left untouched. -/
def updateTrailingStops (m : StopOrderManager) (current : Int) : StopOrderManager :=
  { m with buy_stops := m.buy_stops.map (fun e => (e.1, updTrailBuy current e.2)),
           sell_stops := m.sell_stops.map (fun e => (e.1, updTrailSell current e.2)) }

/-- A record enqueued to the WAL writer (the serialised JSON line is kept
structured: its text content is irrelevant to the claims). -/
inductive WalLine
  | order (payload : String)
  | trade (payload : String)
  | cancel (order_id reason : String)
deriving DecidableEq, Repr

/-- The queue-level state of `WAL` from `wal.cpp`: the `running_` flag,
the producer queue, the `total_entries_` counter and the lines already
written to the log file. -/
structure WalState where
  running : Bool
  queue : List WalLine
  total_entries : Nat
  file : List WalLine
deriving DecidableEq, Repr

/-- `WAL::append_json`: when `running_` is false the call returns at once,
touching nothing and reporting nothing; otherwise the serialised line is
enqueued and `total_entries_` incremented. -/
def appendJson (w : WalState) (line : WalLine) : WalState :=
  if w.running then
    { w with queue := w.queue ++ [line], total_entries := w.total_entries + 1 }
  else w

/-- `WAL::append_order`. -/
def appendOrder (w : WalState) (payload : String) : WalState :=
  appendJson w (WalLine.order payload)

/-- `WAL::append_trade`. -/
def appendTrade (w : WalState) (payload : String) : WalState :=
  appendJson w (WalLine.trade payload)

/-- `WAL::append_cancel`. -/
def appendCancel (w : WalState) (oid reason : String) : WalState :=
  appendJson w (WalLine.cancel oid reason)

/-- The payload of a `type:"order"` WAL record.  Regular orders carry
`order_type ∈ {market, limit, ioc, fok}` with `price`; stop orders are
logged with `order_type = "stop"` plus `stop_type`, `trigger_price` and
`limit_price` (and no `price` field, modelled as `0`). -/
structure OrderPayload where
  order_id : String
  symbol : String
  order_type : String
  side : String
  quantity : Int
  price : Int
  stop_type : String
  trigger_price : Int
  limit_price : Int
deriving DecidableEq, Repr

/-- The payload of a `type:"trade"` WAL record. -/
structure TradePayload where
  trade_id : String
  symbol : String
  price : Int
  quantity : Int
  aggressor_side : String
  maker_order_id : String
  taker_order_id : String
  maker_fee : Int
  taker_fee : Int
deriving DecidableEq, Repr

/-- A parsed WAL record as consumed by `replay_wal` in `main.cpp`. -/
inductive WalRecord
  | order (p : OrderPayload)
  | trade (p : TradePayload)
  | cancel (order_id : String)
deriving DecidableEq, Repr

/-- `Order::from_json` (`include/order.h`), applied to an order payload. -/
def orderOfPayload (p : OrderPayload) : Order :=
  { order_id := p.order_id, symbol := p.symbol, order_type := p.order_type,
    side := p.side, quantity := p.quantity, price := p.price }

/-- `StopOrder::from_json` (`include/stop_order_manager.h`):
`stop_type == "stop_limit"` yields `STOP_LIMIT` with the payload's
`limit_price`, anything else yields `STOP_LOSS` with limit `0`;
`best_price` defaults to the trigger price and `trail_amount` to `0`. -/
def stopOfPayload (p : OrderPayload) : StopOrder :=
  if p.stop_type = "stop_limit" then
    { order_id := p.order_id, symbol := p.symbol, stop_type := StopOrderType.STOP_LIMIT,
      side := p.side, trigger_price := p.trigger_price, limit_price := p.limit_price,
      quantity := p.quantity, trail_amount := 0, best_price := p.trigger_price }
  else
    { order_id := p.order_id, symbol := p.symbol, stop_type := StopOrderType.STOP_LOSS,
      side := p.side, trigger_price := p.trigger_price, limit_price := 0,
      quantity := p.quantity, trail_amount := 0, best_price := p.trigger_price }

/-- Default fee configuration.  Modelled from the spec: the `FeeConfig`
declaration and its defaults are not among the source files; §6 of the
specification fixes the default at `(maker_bps, taker_bps) = (10, 20)`.
No claim's verdict depends on these two numbers. -/
def defaultFeeConfig : FeeConfig := ⟨10, 20⟩

/-- A fresh `OrderBook` as constructed by `try_emplace(symbol, symbol)`. -/
def emptyBook (sym : String) : OrderBook :=
  { symbol := sym, bids := [], asks := [], order_index := [], fee := defaultFeeConfig }

/-- A fresh `StopOrderManager`. -/
def emptyManager (sym : String) : StopOrderManager :=
  { symbol := sym, buy_stops := [], sell_stops := [], order_index := [], stop_counter := 1 }

/-- Lookup in a string-keyed association list (`std::unordered_map`). -/
def alistFind {α : Type} (l : List (String × α)) (k : String) : Option α :=
  (l.find? (fun e => e.1 = k)).map (·.2)

/-- Overwriting insertion into a string-keyed association list. -/
def alistSet {α : Type} (l : List (String × α)) (k : String) (v : α) : List (String × α) :=
  if (l.find? (fun e => e.1 = k)).isSome then
    l.map (fun e => if e.1 = k then (e.1, v) else e)
  else l ++ [(k, v)]

/-- Erasure from a string-keyed association list. -/
def alistErase {α : Type} (l : List (String × α)) (k : String) : List (String × α) :=
  l.filter (fun e => e.1 ≠ k)

/-- The process-wide engine state (`global_state.cpp` plus the two static
id counters): per-symbol books and stop managers, the `order_id → symbol`
map, the shared `g_total_orders` counter (which also numbers `ORD-`/`STO-`
ids), `g_total_trades`, the trade-id counter from `order_book.cpp`
(initially `1`), and the sequence of records appended to the WAL. -/
structure Engine where
  books : List (String × OrderBook)
  stop_managers : List (String × StopOrderManager)
  order_to_symbol : List (String × String)
  total_orders : Nat
  total_trades : Nat
  trade_counter : Nat
  wal : List WalRecord
deriving DecidableEq, Repr

/-- The engine state at process start. -/
def engine0 : Engine :=
  { books := [], stop_managers := [], order_to_symbol := [],
    total_orders := 0, total_trades := 0, trade_counter := 1, wal := [] }

/-- A validated `POST /orders` request (fields already scaled to
integers, as produced by the handler's validation block). -/
structure OrderRequest where
  symbol : String
  order_type : String
  side : String
  quantity : Int
  price : Int
deriving DecidableEq, Repr

/-- The user-visible status computed at step 7 of the `POST /orders`
handler in `server.cpp`. -/
def computeStatus (order_type : String) (quantity filled : Int) : String :=
  let remaining := max 0 (quantity - filled)
  if order_type = "fok" then
    if filled = quantity then "filled" else "cancelled"
  else if order_type = "ioc" then
    if filled = 0 ∧ 0 < remaining then "cancelled"
    else if remaining = 0 then "filled" else "partially_filled"
  else if order_type = "market" then
    if filled = 0 then "cancelled"
    else if 0 < remaining then "partially_filled" else "filled"
  else
    if remaining = 0 then "filled"
    else if 0 < filled then "partially_filled" else "open"

/-- The WAL payload written for a regular order. -/
def payloadOfOrder (o : Order) : OrderPayload :=
  { order_id := o.order_id, symbol := o.symbol, order_type := o.order_type,
    side := o.side, quantity := o.quantity, price := o.price,
    stop_type := "", trigger_price := 0, limit_price := 0 }

/-- The WAL payload written for a trade. -/
def payloadOfTrade (t : Trade) : TradePayload :=
  { trade_id := t.trade_id, symbol := t.symbol, price := t.price,
    quantity := t.quantity, aggressor_side := t.aggressor_side,
    maker_order_id := t.maker_order_id, taker_order_id := t.taker_order_id,
    maker_fee := t.maker_fee, taker_fee := t.taker_fee }

/-- Result of one `POST /orders` submission. -/
structure SubmitResult where
  engine : Engine
  order : Order
  trades : List Trade
  status : String
deriving DecidableEq, Repr

/-- The `POST /orders` handler of `server.cpp` after validation:
assign `"ORD-" + (g_total_orders.fetch_add(1) + 1)`, append the order
record to the WAL, find-or-create the symbol's book, record
`order_id → symbol`, run `add_order`, bump `g_total_trades`, append one
WAL record per trade, and compute the response status.  The handler never
consults the symbol's `StopOrderManager`. -/
def submitOrder (e : Engine) (req : OrderRequest) : SubmitResult :=
  let o : Order :=
    { order_id := "ORD-" ++ toString (e.total_orders + 1), symbol := req.symbol,
      order_type := req.order_type, side := req.side,
      quantity := req.quantity, price := req.price }
  let book := (alistFind e.books req.symbol).getD (emptyBook req.symbol)
  let r := addOrder book o e.trade_counter
  let status := computeStatus o.order_type o.quantity ((r.trades.map Trade.quantity).sum)
  let e' : Engine :=
    { books := alistSet e.books req.symbol r.book,
      stop_managers := e.stop_managers,
      order_to_symbol := alistSet e.order_to_symbol o.order_id req.symbol,
      total_orders := e.total_orders + 1,
      total_trades := e.total_trades + r.trades.length,
      trade_counter := r.tc,
      wal := e.wal ++ WalRecord.order (payloadOfOrder o)
               :: r.trades.map (fun t => WalRecord.trade (payloadOfTrade t)) }
  { engine := e', order := o, trades := r.trades, status := status }

/-- A validated `POST /orders/stop` request. -/
structure StopRequest where
  symbol : String
  stop_type : String
  side : String
  quantity : Int
  trigger_price : Int
  limit_price : Int
deriving DecidableEq, Repr

/-- The `POST /orders/stop` handler of `server.cpp`: the stop id is
`"STO-" + (g_total_orders.fetch_add(1) + 1)` — the SAME counter as regular
orders — the record is WAL-appended with `order_type = "stop"`, and the
stop is added to the symbol's manager. -/
def submitStop (e : Engine) (req : StopRequest) : String × Engine :=
  let so : StopOrder :=
    { order_id := "STO-" ++ toString (e.total_orders + 1), symbol := req.symbol,
      stop_type := if req.stop_type = "stop_limit" then StopOrderType.STOP_LIMIT
                   else StopOrderType.STOP_LOSS,
      side := req.side, trigger_price := req.trigger_price,
      limit_price := if req.stop_type = "stop_limit" then req.limit_price else 0,
      quantity := req.quantity, trail_amount := 0,
      best_price := if req.side = "buy" then 999999999999 else 0 }
  let payload : OrderPayload :=
    { order_id := so.order_id, symbol := so.symbol, order_type := "stop",
      side := so.side, quantity := so.quantity, price := 0,
      stop_type := req.stop_type, trigger_price := so.trigger_price,
      limit_price := so.limit_price }
  let mgr := (alistFind e.stop_managers req.symbol).getD (emptyManager req.symbol)
  let mgr' := (addStopOrder mgr so).2
  (so.order_id,
   { e with stop_managers := alistSet e.stop_managers req.symbol mgr',
            order_to_symbol := alistSet e.order_to_symbol so.order_id req.symbol,
            total_orders := e.total_orders + 1,
            wal := e.wal ++ [WalRecord.order payload] })

/-- One step of `replay_wal` in `main.cpp`.  An `order` record with
`order_type == "stop"` is fed to `add_stop_order`; any other `order`
record is re-submitted through `add_order` — replay re-runs MATCHING, and
the re-derived trades are discarded (but the trade-id counter advances).
A `trade` record only bumps a local logging counter: the engine state is
untouched.  A `cancel` record cancels from both the book and the stop
manager of the tracked symbol.  `g_total_orders` and `g_total_trades`
are never modified. -/
def replayStep (e : Engine) (rec : WalRecord) : Engine :=
  match rec with
  | WalRecord.order p =>
    let book := (alistFind e.books p.symbol).getD (emptyBook p.symbol)
    let mgr := (alistFind e.stop_managers p.symbol).getD (emptyManager p.symbol)
    if p.order_type = "stop" then
      let mgr' := (addStopOrder mgr (stopOfPayload p)).2
      { e with books := alistSet e.books p.symbol book,
               stop_managers := alistSet e.stop_managers p.symbol mgr',
               order_to_symbol := alistSet e.order_to_symbol p.order_id p.symbol }
    else
      let r := addOrder book (orderOfPayload p) e.trade_counter
      { e with books := alistSet e.books p.symbol r.book,
               stop_managers := alistSet e.stop_managers p.symbol mgr,
               order_to_symbol := alistSet e.order_to_symbol p.order_id p.symbol,
               trade_counter := r.tc }
  | WalRecord.trade _ => e
  | WalRecord.cancel oid =>
    match alistFind e.order_to_symbol oid with
    | none => e
    | some sym =>
      let books' := match alistFind e.books sym with
                    | none => e.books
                    | some b => alistSet e.books sym (cancelOrder b oid).2
      let mgrs' := match alistFind e.stop_managers sym with
                   | none => e.stop_managers
                   | some m => alistSet e.stop_managers sym (cancelStopOrder m oid).2
      { e with books := books', stop_managers := mgrs',
               order_to_symbol := alistErase e.order_to_symbol oid }

/-- `replay_wal`: fold the parsed records over `replayStep`. -/
def replayWal (e : Engine) (recs : List WalRecord) : Engine :=
  recs.foldl replayStep e

/-- Staging state of the replay procedure described by the specification
(claim C1). -/
structure ReplayStagingState where
  staging : List (String × Order)
  stop_staging : List (String × StopOrder)
deriving DecidableEq, Repr

/-- Decrement one staged order's quantity by a trade's quantity, removing
the entry when the quantity drops to `≤ 0` (claim C1's trade step). -/
def stagingDecrement (staging : List (String × Order)) (oid : String) (qty : Int) :
    List (String × Order) :=
  match alistFind staging oid with
  | none => staging
  | some o =>
    if o.quantity - qty ≤ 0 then alistErase staging oid
    else alistSet staging oid { o with quantity := o.quantity - qty }

/-- One step of the specification's replay (claim C1): `order` records
set/replace a staging entry, `trade` records decrement maker and taker,
`cancel` records remove from whichever staging map holds the id. -/
def replaySpecStep (s : ReplayStagingState) (rec : WalRecord) : ReplayStagingState :=
  match rec with
  | WalRecord.order p =>
    if p.order_type = "stop" then
      { s with stop_staging := alistSet s.stop_staging p.order_id (stopOfPayload p) }
    else
      { s with staging := alistSet s.staging p.order_id (orderOfPayload p) }
  | WalRecord.trade t =>
    { s with staging := (stagingDecrement
        (stagingDecrement s.staging t.maker_order_id t.quantity)
        t.taker_order_id t.quantity) }
  | WalRecord.cancel oid =>
    { staging := alistErase s.staging oid,
      stop_staging := alistErase s.stop_staging oid }

/-- The replay-only book insertion the specification describes: rest the
surviving order at its price on its side, bypassing matching, and index
it. -/
def bypassInsert (b : OrderBook) (o : Order) : OrderBook :=
  if o.side = "buy" then
    { b with bids := pushLevelDesc b.bids o.price o,
             order_index := idxInsert b.order_index o.order_id (o.price, true) }
  else
    { b with asks := pushLevelAsc b.asks o.price o,
             order_index := idxInsert b.order_index o.order_id (o.price, false) }

/-- Modelled from the spec: the replay algorithm of §4.E as the claim C1
states it — no part of the sources implements it.  Maintain staging maps
over the record pass, decrementing staged quantities on each `trade`
record, then insert each surviving staged order into its symbol's book via
a replay-only insertion that bypasses matching (and each surviving stop
into its manager). -/
def replaySpecBooks (recs : List WalRecord) :
    List (String × OrderBook) × List (String × StopOrderManager) :=
  let s := recs.foldl replaySpecStep ⟨[], []⟩
  let books := s.staging.foldl
    (fun acc (entry : String × Order) =>
      let o := entry.2
      let b := (alistFind acc o.symbol).getD (emptyBook o.symbol)
      alistSet acc o.symbol (bypassInsert b o)) []
  let mgrs := s.stop_staging.foldl
    (fun acc (entry : String × StopOrder) =>
      let so := entry.2
      let m := (alistFind acc so.symbol).getD (emptyManager so.symbol)
      alistSet acc so.symbol (addStopOrder m so).2) []
  (books, mgrs)

/-! ### Quantity bookkeeping helpers and matching lemmas -/

/-- Total quantity resting in one level's deque. -/
def qtySum (q : List Order) : Int := (q.map Order.quantity).sum

/-- Total quantity resting across a list of levels. -/
def levelsQtySum (levels : List (Int × List Order)) : Int :=
  (levels.map (fun l => qtySum l.2)).sum

/-- Total quantity across a list of trades. -/
def tradesQtySum (ts : List Trade) : Int := (ts.map Trade.quantity).sum

lemma mkTrade_quantity (sym : String) (fee : FeeConfig) (aggr : Order) (lvl qty : Int)
    (mid : String) (tc : Nat) : (mkTrade sym fee aggr lvl qty mid tc).quantity = qty := rfl

lemma mkTrade_price (sym : String) (fee : FeeConfig) (aggr : Order) (lvl qty : Int)
    (mid : String) (tc : Nat) : (mkTrade sym fee aggr lvl qty mid tc).price = lvl := rfl

lemma qtySum_nonneg {q : List Order} (h : ∀ m ∈ q, 0 < m.quantity) : 0 ≤ qtySum q := by
  refine List.sum_nonneg ?_
  intro x hx
  rcases List.mem_map.1 hx with ⟨m, hm, rfl⟩
  exact le_of_lt (h m hm)

lemma levelsQtySum_nonneg {levels : List (Int × List Order)}
    (h : ∀ l ∈ levels, ∀ m ∈ l.2, 0 < m.quantity) : 0 ≤ levelsQtySum levels := by
  refine List.sum_nonneg ?_
  intro x hx
  rcases List.mem_map.1 hx with ⟨l, hl, rfl⟩
  exact qtySum_nonneg (h l hl)

lemma idxLookup_eq_none_iff (idx : OrderIndex) (id : String) :
    idxLookup idx id = none ↔ ∀ e ∈ idx, e.1 ≠ id := by
  simp [idxLookup, List.find?_eq_none]

lemma idxErase_lookup_none (idx : OrderIndex) (x id : String)
    (h : idxLookup idx id = none) : idxLookup (idxErase idx x) id = none := by
  rw [idxLookup_eq_none_iff] at h ⊢
  intro e he
  exact h e (List.mem_of_mem_filter he)

/-- Matching conserves quantity: the trades produced at one level sum to
the quantity taken off `remaining`. -/
lemma matchQueue_conservation (sym : String) (fee : FeeConfig) (aggr : Order)
    (lvl : Int) (q : List Order) :
    ∀ (remaining : Int) (tc : Nat) (idx : OrderIndex),
      tradesQtySum (matchQueue sym fee aggr lvl q remaining tc idx).trades =
        remaining - (matchQueue sym fee aggr lvl q remaining tc idx).remaining := by
  induction q with
  | nil =>
    intro remaining tc idx
    simp [matchQueue, tradesQtySum]
  | cons maker rest ih =>
    intro remaining tc idx
    by_cases h : remaining ≤ 0
    · simp [matchQueue, h, tradesQtySum]
    · by_cases h2 : 0 < maker.quantity - min remaining maker.quantity
      · simp [matchQueue, h, h2, tradesQtySum, mkTrade_quantity]
      · simp only [matchQueue, if_neg h, if_neg h2]
        have := ih (remaining - min remaining maker.quantity) (tc + 1)
          (idxErase idx maker.order_id)
        simp only [tradesQtySum, List.map_cons, List.sum_cons, mkTrade_quantity] at *
        omega

/-- Every trade produced at one level carries that level's price. -/
lemma matchQueue_price (sym : String) (fee : FeeConfig) (aggr : Order)
    (lvl : Int) (q : List Order) :
    ∀ (remaining : Int) (tc : Nat) (idx : OrderIndex),
      ∀ t ∈ (matchQueue sym fee aggr lvl q remaining tc idx).trades, t.price = lvl := by
  induction q with
  | nil =>
    intro remaining tc idx t ht
    simp [matchQueue] at ht
  | cons maker rest ih =>
    intro remaining tc idx t ht
    by_cases h : remaining ≤ 0
    · simp [matchQueue, h] at ht
    · by_cases h2 : 0 < maker.quantity - min remaining maker.quantity
      · simp [matchQueue, h, h2] at ht
        simp [ht, mkTrade_price]
      · simp only [matchQueue, if_neg h, if_neg h2, List.mem_cons] at ht
        rcases ht with rfl | ht
        · simp [mkTrade_price]
        · exact ih _ _ _ t ht

/-- The inner matching loop never adds index entries: an id absent from
the index stays absent. -/
lemma matchQueue_idx_none (sym : String) (fee : FeeConfig) (aggr : Order)
    (lvl : Int) (q : List Order) (id : String) :
    ∀ (remaining : Int) (tc : Nat) (idx : OrderIndex),
      idxLookup idx id = none →
      idxLookup (matchQueue sym fee aggr lvl q remaining tc idx).idx id = none := by
  induction q with
  | nil =>
    intro remaining tc idx h
    simpa [matchQueue] using h
  | cons maker rest ih =>
    intro remaining tc idx h
    by_cases hr : remaining ≤ 0
    · simpa [matchQueue, hr] using h
    · by_cases h2 : 0 < maker.quantity - min remaining maker.quantity
      · simpa [matchQueue, hr, h2] using h
      · simp only [matchQueue, if_neg hr, if_neg h2]
        exact ih _ _ _ (idxErase_lookup_none _ _ _ h)

/-- Greedy fill bound for one level: with strictly positive maker
quantities, the loop takes `min remaining (qtySum q)` off `remaining`,
and drains the level whenever its total fits into `remaining`. -/
lemma matchQueue_rem (sym : String) (fee : FeeConfig) (aggr : Order)
    (lvl : Int) (q : List Order) :
    ∀ (remaining : Int) (tc : Nat) (idx : OrderIndex),
      (∀ m ∈ q, 0 < m.quantity) → 0 ≤ remaining →
      (matchQueue sym fee aggr lvl q remaining tc idx).remaining =
          remaining - min remaining (qtySum q) ∧
      (qtySum q ≤ remaining → (matchQueue sym fee aggr lvl q remaining tc idx).queue = []) := by
  induction q with
  | nil =>
    intro remaining tc idx _ hr
    constructor
    · have hmin : min remaining (qtySum ([] : List Order)) = qtySum [] := by
        simp [qtySum]
        exact hr
      simp only [matchQueue, hmin]
      simp [qtySum]
    · intro _; simp [matchQueue]
  | cons maker rest ih =>
    intro remaining tc idx hpos hr
    have hmaker : 0 < maker.quantity := hpos maker (List.mem_cons_self _ _)
    have hrest : ∀ m ∈ rest, 0 < m.quantity := fun m hm => hpos m (List.mem_cons_of_mem _ hm)
    have hrestsum : 0 ≤ qtySum rest := qtySum_nonneg hrest
    have hq : qtySum (maker :: rest) = maker.quantity + qtySum rest := by
      simp [qtySum]
    by_cases h : remaining ≤ 0
    · have hzero : remaining = 0 := le_antisymm h hr
      have hstep : matchQueue sym fee aggr lvl (maker :: rest) remaining tc idx =
          ⟨[], maker :: rest, remaining, tc, idx⟩ := by
        simp only [matchQueue, if_pos h]
      have hmin : min remaining (qtySum (maker :: rest)) = remaining :=
        min_eq_left (by omega)
      constructor
      · rw [hstep, hmin]
        dsimp only
        omega
      · intro hsum
        rw [hq] at hsum
        omega
    · by_cases h2 : 0 < maker.quantity - min remaining maker.quantity
      · -- partially filled maker: remaining < maker.quantity, so the taker
        -- is exhausted and the level survives
        have hlt : remaining < maker.quantity := by
          by_contra hc
          push_neg at hc
          rw [min_eq_right hc] at h2
          omega
        have h2' : 0 < maker.quantity - remaining := by omega
        have hstep : matchQueue sym fee aggr lvl (maker :: rest) remaining tc idx =
            ⟨[mkTrade sym fee aggr lvl remaining maker.order_id tc],
             { maker with quantity := maker.quantity - remaining } :: rest,
             remaining - remaining, tc + 1, idx⟩ := by
          simp only [matchQueue, if_neg h, min_eq_left (le_of_lt hlt), if_pos h2']
        have hmin : min remaining (qtySum (maker :: rest)) = remaining :=
          min_eq_left (by omega)
        constructor
        · rw [hstep, hmin]
        · intro hsum
          rw [hq] at hsum
          omega
      · -- fully consumed maker
        have hle : maker.quantity ≤ remaining := by
          by_contra hc
          push_neg at hc
          rw [min_eq_left (le_of_lt hc)] at h2
          omega
        have h2' : ¬ 0 < maker.quantity - maker.quantity := by omega
        have hstep : matchQueue sym fee aggr lvl (maker :: rest) remaining tc idx =
            ⟨mkTrade sym fee aggr lvl maker.quantity maker.order_id tc ::
               (matchQueue sym fee aggr lvl rest (remaining - maker.quantity) (tc + 1)
                 (idxErase idx maker.order_id)).trades,
             (matchQueue sym fee aggr lvl rest (remaining - maker.quantity) (tc + 1)
               (idxErase idx maker.order_id)).queue,
             (matchQueue sym fee aggr lvl rest (remaining - maker.quantity) (tc + 1)
               (idxErase idx maker.order_id)).remaining,
             (matchQueue sym fee aggr lvl rest (remaining - maker.quantity) (tc + 1)
               (idxErase idx maker.order_id)).tc,
             (matchQueue sym fee aggr lvl rest (remaining - maker.quantity) (tc + 1)
               (idxErase idx maker.order_id)).idx⟩ := by
          simp only [matchQueue, if_neg h, min_eq_right hle, if_neg h2']
        have hih := ih (remaining - maker.quantity) (tc + 1) (idxErase idx maker.order_id)
          hrest (by omega)
        constructor
        · rw [hstep]
          dsimp only
          rw [hih.1, hq]
          rcases le_total (remaining - maker.quantity) (qtySum rest) with hc | hc
          · rw [min_eq_left hc, min_eq_left (by omega : remaining ≤ maker.quantity + qtySum rest)]
            omega
          · rw [min_eq_right hc, min_eq_right (by omega : maker.quantity + qtySum rest ≤ remaining)]
            omega
        · intro hsum
          rw [hq] at hsum
          rw [hstep]
          dsimp only
          exact hih.2 (by omega)

lemma tradesQtySum_append (a b : List Trade) :
    tradesQtySum (a ++ b) = tradesQtySum a + tradesQtySum b := by
  simp [tradesQtySum]

lemma levelsQtySum_cons (p : Int) (q : List Order) (rest : List (Int × List Order)) :
    levelsQtySum ((p, q) :: rest) = qtySum q + levelsQtySum rest := by
  simp [levelsQtySum]

/-- A matched order with nothing left to fill changes nothing. -/
lemma matchBook_zero (sym : String) (fee : FeeConfig) (aggr : Order) (isBuy : Bool)
    (levels : List (Int × List Order)) (remaining : Int) (tc : Nat) (idx : OrderIndex)
    (h : remaining ≤ 0) :
    matchBook sym fee aggr isBuy levels remaining tc idx = ⟨[], levels, remaining, tc, idx⟩ := by
  cases levels with
  | nil => simp [matchBook]
  | cons l rest =>
    obtain ⟨p, q⟩ := l
    simp only [matchBook, if_pos h]

/-- Matching conserves quantity across levels. -/
lemma matchBook_conservation (sym : String) (fee : FeeConfig) (aggr : Order) (isBuy : Bool)
    (levels : List (Int × List Order)) :
    ∀ (remaining : Int) (tc : Nat) (idx : OrderIndex),
      tradesQtySum (matchBook sym fee aggr isBuy levels remaining tc idx).trades =
        remaining - (matchBook sym fee aggr isBuy levels remaining tc idx).remaining := by
  induction levels with
  | nil =>
    intro remaining tc idx
    simp [matchBook, tradesQtySum]
  | cons l rest ih =>
    obtain ⟨p, q⟩ := l
    intro remaining tc idx
    by_cases h : remaining ≤ 0
    · simp [matchBook, if_pos h, tradesQtySum]
    · by_cases hc : aggr.order_type = "limit" ∧
        (if isBuy then aggr.price < p else p < aggr.price)
      · simp [matchBook, if_neg h, if_pos hc, tradesQtySum]
      · simp only [matchBook, if_neg h, if_neg hc]
        split
        · dsimp only
          rw [tradesQtySum_append, matchQueue_conservation, ih]
          omega
        · dsimp only
          rw [matchQueue_conservation]

/-- The outer matching loop never adds index entries. -/
lemma matchBook_idx_none (sym : String) (fee : FeeConfig) (aggr : Order) (isBuy : Bool)
    (levels : List (Int × List Order)) (id : String) :
    ∀ (remaining : Int) (tc : Nat) (idx : OrderIndex),
      idxLookup idx id = none →
      idxLookup (matchBook sym fee aggr isBuy levels remaining tc idx).idx id = none := by
  induction levels with
  | nil =>
    intro remaining tc idx h
    simpa [matchBook] using h
  | cons l rest ih =>
    obtain ⟨p, q⟩ := l
    intro remaining tc idx h
    by_cases hr : remaining ≤ 0
    · simpa [matchBook, if_pos hr] using h
    · by_cases hc : aggr.order_type = "limit" ∧
        (if isBuy then aggr.price < p else p < aggr.price)
      · simpa [matchBook, if_neg hr, if_pos hc] using h
      · simp only [matchBook, if_neg hr, if_neg hc]
        split
        · dsimp only
          exact ih _ _ _ (matchQueue_idx_none sym fee aggr p q id _ _ _ h)
        · dsimp only
          exact matchQueue_idx_none sym fee aggr p q id _ _ _ h

/-- Without the limit price constraint, matching greedily fills
`min remaining (total book quantity)`. -/
lemma matchBook_fill (sym : String) (fee : FeeConfig) (aggr : Order) (isBuy : Bool)
    (hnl : aggr.order_type ≠ "limit") (levels : List (Int × List Order)) :
    ∀ (remaining : Int) (tc : Nat) (idx : OrderIndex),
      (∀ l ∈ levels, ∀ m ∈ l.2, 0 < m.quantity) → 0 ≤ remaining →
      (matchBook sym fee aggr isBuy levels remaining tc idx).remaining =
        remaining - min remaining (levelsQtySum levels) := by
  induction levels with
  | nil =>
    intro remaining tc idx _ hr
    have hmin : min remaining (levelsQtySum []) = levelsQtySum [] := by
      simp [levelsQtySum]
      exact hr
    simp only [matchBook, hmin]
    simp [levelsQtySum]
  | cons l rest ih =>
    obtain ⟨p, q⟩ := l
    intro remaining tc idx hpos hr
    have hqpos : ∀ m ∈ q, 0 < m.quantity := hpos (p, q) (List.mem_cons_self _ _)
    have hrestpos : ∀ l ∈ rest, ∀ m ∈ l.2, 0 < m.quantity :=
      fun l hl => hpos l (List.mem_cons_of_mem _ hl)
    have hQ : 0 ≤ qtySum q := qtySum_nonneg hqpos
    have hS : 0 ≤ levelsQtySum rest := levelsQtySum_nonneg hrestpos
    have hcons := levelsQtySum_cons p q rest
    by_cases h : remaining ≤ 0
    · have hzero : remaining = 0 := le_antisymm h hr
      rw [matchBook_zero sym fee aggr isBuy _ _ _ _ h]
      dsimp only
      have : min remaining (levelsQtySum ((p, q) :: rest)) = remaining :=
        min_eq_left (by omega)
      omega
    · have hc : ¬(aggr.order_type = "limit" ∧
        (if isBuy then aggr.price < p else p < aggr.price)) := by
        intro hcc
        exact hnl hcc.1
      have hmq := matchQueue_rem sym fee aggr p q remaining tc idx hqpos hr
      simp only [matchBook, if_neg h, if_neg hc]
      split
      · -- level drained: continue into the remaining levels
        dsimp only
        have hr1 : 0 ≤ (matchQueue sym fee aggr p q remaining tc idx).remaining := by
          rw [hmq.1]
          rcases le_total remaining (qtySum q) with hle | hle
          · rw [min_eq_left hle]; omega
          · rw [min_eq_right hle]; omega
        rw [ih _ _ _ hrestpos hr1, hmq.1]
        rcases le_total remaining (qtySum q) with hle | hle
        · rw [min_eq_left hle]
          have h0 : min (remaining - remaining) (levelsQtySum rest) = remaining - remaining := by
            rw [min_eq_left (by omega)]
          rw [h0]
          have : min remaining (levelsQtySum ((p, q) :: rest)) = remaining :=
            min_eq_left (by omega)
          omega
        · rw [min_eq_right hle]
          rcases le_total (remaining - qtySum q) (levelsQtySum rest) with hd | hd
          · rw [min_eq_left hd]
            have : min remaining (levelsQtySum ((p, q) :: rest)) = remaining :=
              min_eq_left (by omega)
            omega
          · rw [min_eq_right hd]
            have : min remaining (levelsQtySum ((p, q) :: rest)) =
                levelsQtySum ((p, q) :: rest) := min_eq_right (by omega)
            omega
      · -- level retained: the taker was exhausted inside the level
        next hq =>
        dsimp only
        have hlt : qtySum q > remaining := by
          by_contra hcon
          push_neg at hcon
          exact hq (by rw [hmq.2 hcon]; rfl)
        rw [hmq.1, min_eq_left (le_of_lt hlt)]
        have : min remaining (levelsQtySum ((p, q) :: rest)) = remaining :=
          min_eq_left (by omega)
        omega

/-- For a limit order, every produced trade respects the price
constraint: the loop breaks before any level on the wrong side of
`order.price` is touched. -/
lemma matchBook_price_limit (sym : String) (fee : FeeConfig) (aggr : Order) (isBuy : Bool)
    (hlim : aggr.order_type = "limit") (levels : List (Int × List Order)) :
    ∀ (remaining : Int) (tc : Nat) (idx : OrderIndex),
      ∀ t ∈ (matchBook sym fee aggr isBuy levels remaining tc idx).trades,
        if isBuy then t.price ≤ aggr.price else aggr.price ≤ t.price := by
  induction levels with
  | nil =>
    intro remaining tc idx t ht
    simp [matchBook] at ht
  | cons l rest ih =>
    obtain ⟨p, q⟩ := l
    intro remaining tc idx t ht
    by_cases h : remaining ≤ 0
    · simp [matchBook, if_pos h] at ht
    · by_cases hc : aggr.order_type = "limit" ∧
        (if isBuy then aggr.price < p else p < aggr.price)
      · simp [matchBook, if_neg h, if_pos hc] at ht
      · have hok : if isBuy then p ≤ aggr.price else aggr.price ≤ p := by
          rcases Decidable.not_and_iff_or_not.1 hc with hbad | hgood
          · exact absurd hlim hbad
          · cases isBuy with
            | true => simp at hgood ⊢; omega
            | false => simp at hgood ⊢; omega
        simp only [matchBook, if_neg h, if_neg hc] at ht
        revert ht
        split
        · dsimp only
          intro ht
          rcases List.mem_append.1 ht with h1 | h2
          · have := matchQueue_price sym fee aggr p q remaining tc idx t h1
            cases isBuy with
            | true => simp at hok ⊢; omega
            | false => simp at hok ⊢; omega
          · exact ih _ _ _ t h2
        · dsimp only
          intro ht
          have := matchQueue_price sym fee aggr p q remaining tc idx t ht
          cases isBuy with
          | true => simp at hok ⊢; omega
          | false => simp at hok ⊢; omega

/-- If some prefix of the level list already holds enough quantity to
absorb `remaining`, matching consumes only levels of that prefix: every
trade's price is the price of a prefix level. -/
lemma matchBook_takeWhile (sym : String) (fee : FeeConfig) (aggr : Order) (isBuy : Bool)
    (ok : Int × List Order → Bool) (hnl : aggr.order_type ≠ "limit")
    (levels : List (Int × List Order)) :
    ∀ (remaining : Int) (tc : Nat) (idx : OrderIndex),
      (∀ l ∈ levels, ∀ m ∈ l.2, 0 < m.quantity) →
      0 < remaining → remaining ≤ levelsQtySum (levels.takeWhile ok) →
      ∀ t ∈ (matchBook sym fee aggr isBuy levels remaining tc idx).trades,
        ∃ l ∈ levels.takeWhile ok, t.price = l.1 := by
  induction levels with
  | nil =>
    intro remaining tc idx _ h0 hsum
    exfalso
    simp [levelsQtySum] at hsum
    omega
  | cons l rest ih =>
    obtain ⟨p, q⟩ := l
    intro remaining tc idx hpos h0 hsum t ht
    have hqpos : ∀ m ∈ q, 0 < m.quantity := hpos (p, q) (List.mem_cons_self _ _)
    have hrestpos : ∀ l ∈ rest, ∀ m ∈ l.2, 0 < m.quantity :=
      fun l hl => hpos l (List.mem_cons_of_mem _ hl)
    by_cases hokh : ok (p, q)
    · rw [List.takeWhile_cons_of_pos hokh] at hsum ⊢
      rw [levelsQtySum_cons] at hsum
      have h : ¬ remaining ≤ 0 := by omega
      have hc : ¬(aggr.order_type = "limit" ∧
          (if isBuy then aggr.price < p else p < aggr.price)) := by
        intro hcc
        exact hnl hcc.1
      have hmq := matchQueue_rem sym fee aggr p q remaining tc idx hqpos (by omega)
      simp only [matchBook, if_neg h, if_neg hc] at ht
      revert ht
      split
      · dsimp only
        intro ht
        rcases List.mem_append.1 ht with h1 | h2
        · exact ⟨(p, q), List.mem_cons_self _ _,
            matchQueue_price sym fee aggr p q remaining tc idx t h1⟩
        · by_cases hrem : (matchQueue sym fee aggr p q remaining tc idx).remaining ≤ 0
          · rw [matchBook_zero sym fee aggr isBuy rest _ _ _ hrem] at h2
            simp at h2
          · push_neg at hrem
            have hQlt : qtySum q < remaining := by
              by_contra hcon
              push_neg at hcon
              rw [hmq.1, min_eq_left hcon] at hrem
              omega
            have hreq : (matchQueue sym fee aggr p q remaining tc idx).remaining =
                remaining - qtySum q := by
              rw [hmq.1, min_eq_right (le_of_lt hQlt)]
            rcases ih _ _ _ hrestpos hrem (by omega) t h2 with ⟨l, hl, hpr⟩
            exact ⟨l, List.mem_cons_of_mem _ hl, hpr⟩
      · dsimp only
        intro ht
        exact ⟨(p, q), List.mem_cons_self _ _,
          matchQueue_price sym fee aggr p q remaining tc idx t ht⟩
    · exfalso
      rw [List.takeWhile_cons_of_neg hokh] at hsum
      simp [levelsQtySum] at hsum
      omega

/-- The break predicate of the FOK pre-check, as a predicate on levels:
`true` while the level does NOT violate the price constraint. -/
def fokLevelOk (aggrPrice : Int) (isBuy : Bool) (l : Int × List Order) : Bool :=
  decide (¬ (0 < aggrPrice ∧ (if isBuy then aggrPrice < l.1 else l.1 < aggrPrice)))

lemma fokScanQueue_le (need : Int) (q : List Order) :
    ∀ f : Int, (∀ m ∈ q, 0 < m.quantity) → fokScanQueue need q f ≤ f + qtySum q := by
  induction q with
  | nil =>
    intro f _
    simp [fokScanQueue, qtySum]
  | cons o rest ih =>
    intro f hpos
    have hopos : 0 < o.quantity := hpos o (List.mem_cons_self _ _)
    have hrest : ∀ m ∈ rest, 0 < m.quantity := fun m hm => hpos m (List.mem_cons_of_mem _ hm)
    have hrs : 0 ≤ qtySum rest := qtySum_nonneg hrest
    have hq : qtySum (o :: rest) = o.quantity + qtySum rest := by simp [qtySum]
    simp only [fokScanQueue]
    split
    · omega
    · have := ih (f + o.quantity) hrest
      omega

/-- The FOK pre-check counts quantity only inside the
constraint-satisfying prefix of the level list. -/
lemma fokScanLevels_le (aggrPrice need : Int) (isBuy : Bool)
    (levels : List (Int × List Order)) :
    ∀ f : Int, (∀ l ∈ levels, ∀ m ∈ l.2, 0 < m.quantity) →
      fokScanLevels aggrPrice need isBuy levels f ≤
        f + levelsQtySum (levels.takeWhile (fokLevelOk aggrPrice isBuy)) := by
  induction levels with
  | nil =>
    intro f _
    simp [fokScanLevels, levelsQtySum]
  | cons l rest ih =>
    obtain ⟨p, q⟩ := l
    intro f hpos
    have hqpos : ∀ m ∈ q, 0 < m.quantity := hpos (p, q) (List.mem_cons_self _ _)
    have hrestpos : ∀ l ∈ rest, ∀ m ∈ l.2, 0 < m.quantity :=
      fun l hl => hpos l (List.mem_cons_of_mem _ hl)
    by_cases hbr : 0 < aggrPrice ∧ (if isBuy then aggrPrice < p else p < aggrPrice)
    · have hok : fokLevelOk aggrPrice isBuy (p, q) = false := by
        simp only [fokLevelOk, decide_eq_false_iff_not, not_not]
        exact hbr
      rw [List.takeWhile_cons_of_neg (by simp [hok])]
      simp only [fokScanLevels, if_pos hbr]
      simp [levelsQtySum]
    · have hok : fokLevelOk aggrPrice isBuy (p, q) = true := by
        simp only [fokLevelOk, decide_eq_true_eq]
        exact hbr
      rw [List.takeWhile_cons_of_pos (by simp [hok])]
      rw [levelsQtySum_cons]
      have htw : 0 ≤ levelsQtySum (rest.takeWhile (fokLevelOk aggrPrice isBuy)) := by
        refine levelsQtySum_nonneg ?_
        intro l hl
        exact hrestpos l ((List.takeWhile_sublist _).subset hl)
      have hf1 := fokScanQueue_le need q f hqpos
      simp only [fokScanLevels, if_neg hbr]
      split
      · omega
      · have := ih (fokScanQueue need q f) hrestpos
        omega

/-- The constraint-satisfying prefix holds no more quantity than the
whole list. -/
lemma levelsQtySum_takeWhile_le (ok : Int × List Order → Bool)
    (levels : List (Int × List Order))
    (hpos : ∀ l ∈ levels, ∀ m ∈ l.2, 0 < m.quantity) :
    levelsQtySum (levels.takeWhile ok) ≤ levelsQtySum levels := by
  induction levels with
  | nil => simp
  | cons l rest ih =>
    obtain ⟨p, q⟩ := l
    have hqpos : ∀ m ∈ q, 0 < m.quantity := hpos (p, q) (List.mem_cons_self _ _)
    have hrestpos : ∀ l ∈ rest, ∀ m ∈ l.2, 0 < m.quantity :=
      fun l hl => hpos l (List.mem_cons_of_mem _ hl)
    have hQ : 0 ≤ qtySum q := qtySum_nonneg hqpos
    have hS : 0 ≤ levelsQtySum rest := levelsQtySum_nonneg hrestpos
    have htw : 0 ≤ levelsQtySum (rest.takeWhile ok) := by
      refine levelsQtySum_nonneg ?_
      intro l hl
      exact hrestpos l ((List.takeWhile_sublist _).subset hl)
    by_cases hokh : ok (p, q)
    · rw [List.takeWhile_cons_of_pos hokh, levelsQtySum_cons, levelsQtySum_cons]
      have := ih hrestpos
      omega
    · rw [List.takeWhile_cons_of_neg hokh, levelsQtySum_cons]
      have h0 : levelsQtySum ([] : List (Int × List Order)) = 0 := by
        simp [levelsQtySum]
      omega

/-! ### Concrete instances used by the theorems below -/

/-- A WAL with one resting sell order and one historical trade that
consumed 4 of its 10 units. -/
def c1Wal : List WalRecord :=
  [WalRecord.order ⟨"S1", "SYM", "limit", "sell", 10, 100, "", 0, 0⟩,
   WalRecord.trade ⟨"T-1", "SYM", 100, 4, "buy", "S1", "X1", 0, 0⟩]

/-- A book holding a single resting ask of 5 units at price 150. -/
def iocBook : OrderBook :=
  { symbol := "SYM", bids := [],
    asks := [(150, [⟨"M1", "SYM", "limit", "sell", 5, 150⟩])],
    order_index := [("M1", 150, false)], fee := defaultFeeConfig }

/-- An IOC buy limited to price 100, strictly below the only ask level. -/
def iocOrder : Order := ⟨"B1", "SYM", "ioc", "buy", 5, 100⟩

/-- A manager holding two sell stops, with trigger prices 50 and 100. -/
def c6Mgr : StopOrderManager :=
  (addStopOrder (addStopOrder (emptyManager "SYM")
    ⟨"SL-A", "SYM", StopOrderType.STOP_LOSS, "sell", 50, 0, 7, 0, 0⟩).2
    ⟨"SL-B", "SYM", StopOrderType.STOP_LOSS, "sell", 100, 0, 7, 0, 0⟩).2

/-- A manager holding one sell trailing stop: trigger 9000, trail 500. -/
def c7Mgr1 : StopOrderManager :=
  (addStopOrder (emptyManager "SYM")
    ⟨"TS-1", "SYM", StopOrderType.TRAILING_STOP, "sell", 9000, 0, 5, 500, 0⟩).2

/-- `c7Mgr1` after the market prints 10000: the update tightens the
trailing stop's `trigger_price` field to 9500. -/
def c7Mgr2 : StopOrderManager := updateTrailingStops c7Mgr1 10000

/-- A book with one resting ask of 10 units at price 100. -/
def c3Book : OrderBook :=
  { symbol := "SYM", bids := [],
    asks := [(100, [⟨"S1", "SYM", "limit", "sell", 10, 100⟩])],
    order_index := [("S1", 100, false)], fee := defaultFeeConfig }

/-- A manager with one buy stop whose trigger price 50 is below the ask. -/
def c3Mgr : StopOrderManager :=
  (addStopOrder (emptyManager "SYM")
    ⟨"STO-9", "SYM", StopOrderType.STOP_LOSS, "buy", 50, 0, 3, 0, 0⟩).2

/-- An engine holding `c3Book` and `c3Mgr` for symbol "SYM". -/
def c3Engine : Engine :=
  { engine0 with books := [("SYM", c3Book)], stop_managers := [("SYM", c3Mgr)] }

/-- A buy that crosses the ask of `c3Book` and therefore trades. -/
def c3Req : OrderRequest := ⟨"SYM", "limit", "buy", 5, 150⟩

/-- A trade worth 10000.00 currency units at price scale 100: price 10^6,
quantity 10^6. -/
def c5Trade : Trade := ⟨"T-1", "SYM", 1000000, 1000000, "buy", "M", "K", 0, 0⟩

/-- The fee formula exactly as the specification words it, with the
scaling divisor `Q_SCALE` left as a parameter: only the divisor is in
question between the claim and the code. -/
def feesSpecQ (qscale : Int) (fee : FeeConfig) (t : Trade) : Trade :=
  let notional : Int := (t.price * t.quantity).tdiv qscale
  { t with maker_fee := (notional * fee.maker_fee_bps).tdiv 10000,
           taker_fee := (notional * fee.taker_fee_bps).tdiv 10000 }

/-- A WAL whose only record is an order with the maximal ORD number 5. -/
def c8Wal : List WalRecord :=
  [WalRecord.order ⟨"ORD-5", "SYM", "limit", "sell", 10, 100, "", 0, 0⟩]

/-- The engine reconstructed from `c8Wal`. -/
def c8Engine : Engine := replayWal engine0 c8Wal

/-- The first order submitted after that replay. -/
def c8Submit : SubmitResult := submitOrder c8Engine ⟨"SYM", "limit", "buy", 5, 100⟩

/-! ### Claim theorems -/

/-- C1, counterexample.  The claim says a `trade` WAL record is processed
by decrementing staged quantities and that surviving staged orders are
inserted via a replay-only, matching-free insertion.  On `c1Wal` that
procedure leaves an ask of 6 units (10 staged minus the 4 traded), but
`replay_wal` ignores the trade record entirely and re-submits the order
through matching, leaving an ask of 10 units: the two book states
differ. -/
theorem C1_counterexample :
    (alistFind (replayWal engine0 c1Wal).books "SYM").map (fun b => b.asks) =
      some [(100, [⟨"S1", "SYM", "limit", "sell", 10, 100⟩])] ∧
    (alistFind (replaySpecBooks c1Wal).1 "SYM").map (fun b => b.asks) =
      some [(100, [⟨"S1", "SYM", "limit", "sell", 6, 100⟩])] ∧
    (replayWal engine0 c1Wal).books ≠ (replaySpecBooks c1Wal).1 := by
  refine ⟨by decide, by decide, by decide⟩

/-- C1, amended: engine replay DOES invoke matching — every non-stop
`order` record is re-submitted through `OrderBook::add_order` — and a
`trade` WAL record changes nothing (it is neither staged nor decremented,
and there is no replay-only insertion). -/
theorem C1_amended :
    (∀ (e : Engine) (recs : List WalRecord) (t : TradePayload),
        replayWal e (recs ++ [WalRecord.trade t]) = replayWal e recs) ∧
    (∀ (e : Engine) (p : OrderPayload), p.order_type ≠ "stop" →
        (replayStep e (WalRecord.order p)).books =
          alistSet e.books p.symbol
            (addOrder ((alistFind e.books p.symbol).getD (emptyBook p.symbol))
              (orderOfPayload p) e.trade_counter).book) := by
  constructor
  · intro e recs t
    simp [replayWal, List.foldl_append, replayStep]
  · intro e p h
    simp [replayStep, h]

/-- Closed witness for `C1_amended`. -/
theorem C1_amended_witness :
    replayWal engine0 ([] ++ [WalRecord.trade ⟨"T-1", "SYM", 100, 4, "buy", "S1", "X1", 0, 0⟩]) =
      replayWal engine0 [] ∧
    (OrderPayload.order_type ⟨"S1", "SYM", "limit", "sell", 10, 100, "", 0, 0⟩ ≠ "stop" ∧
     (replayStep engine0 (WalRecord.order ⟨"S1", "SYM", "limit", "sell", 10, 100, "", 0, 0⟩)).books =
       alistSet engine0.books "SYM"
         (addOrder ((alistFind engine0.books "SYM").getD (emptyBook "SYM"))
           (orderOfPayload ⟨"S1", "SYM", "limit", "sell", 10, 100, "", 0, 0⟩)
           engine0.trade_counter).book) :=
  ⟨C1_amended.1 engine0 [] ⟨"T-1", "SYM", 100, 4, "buy", "S1", "X1", 0, 0⟩,
   by decide,
   C1_amended.2 engine0 ⟨"S1", "SYM", "limit", "sell", 10, 100, "", 0, 0⟩ (by decide)⟩

/-- C2.  For every FOK order (price constraint present per the data
model, resting quantities strictly positive, id not already resting):
if the pre-check sum is below `order.quantity`, `add_order` returns no
trades and the book — every price level and the id-index — is exactly
unchanged; otherwise the returned trades sum to exactly `order.quantity`
and the order's id is not indexed afterwards, i.e. no remainder rests on
the book. -/
theorem C2_fok_all_or_nothing (b : OrderBook) (o : Order) (tc : Nat)
    (hfok : o.order_type = "fok")
    (hpos : ∀ l ∈ (if o.side = "buy" then b.asks else b.bids), ∀ m ∈ l.2, 0 < m.quantity)
    (hq : 0 ≤ o.quantity)
    (hfresh : idxLookup b.order_index o.order_id = none) :
    (fokFillable b o < o.quantity → addOrder b o tc = ⟨[], b, tc⟩) ∧
    (o.quantity ≤ fokFillable b o →
      tradesQtySum (addOrder b o tc).trades = o.quantity ∧
      idxLookup (addOrder b o tc).book.order_index o.order_id = none) := by
  constructor
  · intro hlt
    simp only [addOrder]
    rw [if_pos ⟨hfok, hlt⟩]
  · intro hge
    have hnc : ¬(o.order_type = "fok" ∧ fokFillable b o < o.quantity) := by
      rintro ⟨-, hcc⟩
      omega
    have hnl : o.order_type ≠ "limit" := by
      rw [hfok]
      decide
    have htotal : o.quantity ≤ levelsQtySum (if o.side = "buy" then b.asks else b.bids) := by
      have h1 := fokScanLevels_le o.price o.quantity (o.side = "buy")
        (if o.side = "buy" then b.asks else b.bids) 0 hpos
      have h2 := levelsQtySum_takeWhile_le (fokLevelOk o.price (o.side = "buy"))
        (if o.side = "buy" then b.asks else b.bids) hpos
      have h3 : o.quantity ≤ fokScanLevels o.price o.quantity (o.side = "buy")
          (if o.side = "buy" then b.asks else b.bids) 0 := hge
      omega
    have hfill := matchBook_fill b.symbol b.fee o (o.side = "buy") hnl
      (if o.side = "buy" then b.asks else b.bids) o.quantity tc b.order_index hpos hq
    have hrem0 : (matchBook b.symbol b.fee o (o.side = "buy")
        (if o.side = "buy" then b.asks else b.bids) o.quantity tc b.order_index).remaining = 0 := by
      rw [hfill, min_eq_left htotal]
      omega
    have hioc : ¬(o.order_type = "ioc" ∧ 0 < (matchBook b.symbol b.fee o (o.side = "buy")
        (if o.side = "buy" then b.asks else b.bids) o.quantity tc b.order_index).remaining) := by
      rintro ⟨h1, -⟩
      rw [hfok] at h1
      exact absurd h1 (by decide)
    have hnrem : ¬(0 < (matchBook b.symbol b.fee o (o.side = "buy")
        (if o.side = "buy" then b.asks else b.bids) o.quantity tc b.order_index).remaining) := by
      rw [hrem0]
      omega
    simp only [addOrder]
    rw [if_neg hnc, if_neg hioc, if_pos hfok, if_neg hnrem]
    constructor
    · dsimp only
      rw [matchBook_conservation, hrem0]
      omega
    · dsimp only
      by_cases hbuy : o.side = "buy"
      · simp only [if_pos hbuy]
        exact matchBook_idx_none _ _ _ _ _ _ _ _ _ hfresh
      · simp only [if_neg hbuy]
        exact matchBook_idx_none _ _ _ _ _ _ _ _ _ hfresh

/-- A two-level ask book used as the C2 witness input. -/
def c2Book : OrderBook :=
  { symbol := "SYM", bids := [],
    asks := [(100, [⟨"S1", "SYM", "limit", "sell", 3, 100⟩]),
             (110, [⟨"S2", "SYM", "limit", "sell", 3, 110⟩])],
    order_index := [("S1", 100, false), ("S2", 110, false)], fee := defaultFeeConfig }

/-- A FOK buy of 5 units limited to 110, fully fillable on `c2Book`. -/
def c2Order : Order := ⟨"B9", "SYM", "fok", "buy", 5, 110⟩

/-- Closed witness for `C2_fok_all_or_nothing`. -/
theorem C2_fok_all_or_nothing_witness :
    c2Order.quantity ≤ fokFillable c2Book c2Order ∧
    tradesQtySum (addOrder c2Book c2Order 1).trades = c2Order.quantity ∧
    idxLookup (addOrder c2Book c2Order 1).book.order_index c2Order.order_id = none :=
  ⟨by decide,
   (C2_fok_all_or_nothing c2Book c2Order 1 (by decide) (by decide) (by decide)
     (by decide)).2 (by decide)⟩

/-- C4, counterexample.  The claim extends the price constraint to IOC
orders, but `match_against_book` checks it only for
`order_type == "limit"`: the IOC buy `iocOrder`, limited to 100, executes
against the resting ask at 150 — a price strictly worse than its limit. -/
theorem C4_counterexample :
    iocOrder.order_type = "ioc" ∧ iocOrder.side = "buy" ∧ iocOrder.price = 100 ∧
    (addOrder iocBook iocOrder 1).trades.map Trade.price = [150] := by
  refine ⟨rfl, rfl, rfl, by decide⟩

/-- C4, amended: during matching the price constraint is enforced only
for Limit orders, and FOK orders still never trade at a price worse than
`order.price` because the pre-check counts only constraint-satisfying
levels and matching consumes levels in the same order; IOC orders are
matched with NO price constraint and may execute at prices worse than
`order.price` (see the counterexample). -/
theorem C4_amended_price_constraint (b : OrderBook) (o : Order) (tc : Nat)
    (hpos : ∀ l ∈ (if o.side = "buy" then b.asks else b.bids), ∀ m ∈ l.2, 0 < m.quantity)
    (hq : 0 < o.quantity) (hp : 0 < o.price)
    (hkind : o.order_type = "limit" ∨ o.order_type = "fok") :
    ∀ t ∈ (addOrder b o tc).trades,
      if o.side = "buy" then t.price ≤ o.price else o.price ≤ t.price := by
  rcases hkind with hlim | hfok
  · -- Limit: the matching loop itself enforces the constraint
    have hpre : ¬(o.order_type = "fok" ∧ fokFillable b o < o.quantity) := by
      rintro ⟨h1, -⟩
      rw [hlim] at h1
      exact absurd h1 (by decide)
    have hioc : ¬(o.order_type = "ioc" ∧ 0 < (matchBook b.symbol b.fee o (o.side = "buy")
        (if o.side = "buy" then b.asks else b.bids) o.quantity tc b.order_index).remaining) := by
      rintro ⟨h1, -⟩
      rw [hlim] at h1
      exact absurd h1 (by decide)
    have hfokneg : o.order_type ≠ "fok" := by
      rw [hlim]
      decide
    have htr : (addOrder b o tc).trades = (matchBook b.symbol b.fee o (o.side = "buy")
        (if o.side = "buy" then b.asks else b.bids) o.quantity tc b.order_index).trades := by
      simp only [addOrder]
      rw [if_neg hpre, if_neg hioc, if_neg hfokneg]
      by_cases hrl : 0 < (matchBook b.symbol b.fee o (o.side = "buy")
          (if o.side = "buy" then b.asks else b.bids) o.quantity tc b.order_index).remaining ∧
          o.order_type = "limit"
      · rw [if_pos hrl]
      · rw [if_neg hrl]
    intro t ht
    rw [htr] at ht
    have hres := matchBook_price_limit b.symbol b.fee o (o.side = "buy") hlim
      (if o.side = "buy" then b.asks else b.bids) o.quantity tc b.order_index t ht
    by_cases hbuy : o.side = "buy" <;> simp [hbuy] at hres ⊢ <;> exact hres
  · -- FOK: either the pre-check fails (no trades), or the pre-check
    -- guarantees enough quantity inside the constraint-satisfying prefix
    have hnl : o.order_type ≠ "limit" := by
      rw [hfok]
      decide
    by_cases hpre : fokFillable b o < o.quantity
    · intro t ht
      simp only [addOrder] at ht
      rw [if_pos ⟨hfok, hpre⟩] at ht
      simp at ht
    · push_neg at hpre
      have hnc : ¬(o.order_type = "fok" ∧ fokFillable b o < o.quantity) := by
        rintro ⟨-, hcc⟩
        omega
      have hioc : ¬(o.order_type = "ioc" ∧ 0 < (matchBook b.symbol b.fee o (o.side = "buy")
          (if o.side = "buy" then b.asks else b.bids) o.quantity tc b.order_index).remaining) := by
        rintro ⟨h1, -⟩
        rw [hfok] at h1
        exact absurd h1 (by decide)
      have hsum : o.quantity ≤ levelsQtySum
          ((if o.side = "buy" then b.asks else b.bids).takeWhile
            (fokLevelOk o.price (o.side = "buy"))) := by
        have h1 := fokScanLevels_le o.price o.quantity (o.side = "buy")
          (if o.side = "buy" then b.asks else b.bids) 0 hpos
        have h3 : o.quantity ≤ fokScanLevels o.price o.quantity (o.side = "buy")
            (if o.side = "buy" then b.asks else b.bids) 0 := hpre
        omega
      intro t ht
      have hmem : t ∈ (matchBook b.symbol b.fee o (o.side = "buy")
          (if o.side = "buy" then b.asks else b.bids) o.quantity tc b.order_index).trades := by
        simp only [addOrder] at ht
        rw [if_neg hnc, if_neg hioc, if_pos hfok] at ht
        by_cases hgt : 0 < (matchBook b.symbol b.fee o (o.side = "buy")
            (if o.side = "buy" then b.asks else b.bids) o.quantity tc b.order_index).remaining
        · rw [if_pos hgt] at ht
          simp at ht
        · rw [if_neg hgt] at ht
          exact ht
      rcases matchBook_takeWhile b.symbol b.fee o (o.side = "buy")
          (fokLevelOk o.price (o.side = "buy")) hnl
          (if o.side = "buy" then b.asks else b.bids) o.quantity tc b.order_index
          hpos hq hsum t hmem with ⟨l, hl, hpr⟩
      have hokl : fokLevelOk o.price (o.side = "buy") l = true :=
        List.mem_takeWhile_imp hl
      rw [fokLevelOk, decide_eq_true_eq] at hokl
      rw [hpr]
      by_cases hbuy : o.side = "buy"
      · simp only [if_pos hbuy]
        simp [hbuy] at hokl
        exact hokl hp
      · simp only [if_neg hbuy]
        simp [hbuy] at hokl
        exact hokl hp

/-- C3 (code bug).  Submitting `c3Req` against `c3Engine` produces
exactly one trade, at price 100; the buy stop "STO-9" with trigger 50
would be returned by `check_triggers(100)` — yet the `POST /orders`
handler leaves every stop manager untouched: `check_triggers` has no
caller anywhere in the sources, so triggered stops are never fed back
into the pipeline. -/
theorem C3_code_bug :
    (submitOrder c3Engine c3Req).trades.map Trade.price = [100] ∧
    (submitOrder c3Engine c3Req).engine.stop_managers = c3Engine.stop_managers ∧
    (checkTriggers c3Mgr 100).1.map Order.order_id = ["STO-9"] := by
  refine ⟨by decide, by decide, by decide⟩

/-- The limit buy used as the C4 witness input. -/
def c4wOrder : Order := ⟨"B7", "SYM", "limit", "buy", 4, 105⟩

/-- Closed witness for `C4_amended_price_constraint`: a limit buy at 105
on `c2Book` trades only at 100. -/
theorem C4_amended_price_constraint_witness :
    ((addOrder c2Book c4wOrder 1).trades.all
      (fun t => decide (if c4wOrder.side = "buy" then t.price ≤ c4wOrder.price
                        else c4wOrder.price ≤ t.price))) = true := by
  have h := C4_amended_price_constraint c2Book c4wOrder 1 (by decide) (by decide)
    (by decide) (Or.inl rfl)
  rw [List.all_eq_true]
  intro t ht
  rw [decide_eq_true_eq]
  exact h t ht

/-- C9.  Within one price level: makers are consumed from the head of
the queue; each match is exactly one trade at the level's price for
`min(remaining, maker.quantity)` — shown by its two cases: a partially
filled maker (`remaining < maker.quantity`, traded quantity `remaining`)
stays at the head with its quantity reduced and the index untouched,
while a fully filled maker (`maker.quantity ≤ remaining`, traded quantity
`maker.quantity`) is removed from the queue and erased from the id-index;
and a level whose queue empties is removed from the side's map while
matching continues with the remaining levels. -/
theorem C9_level_consumption (sym : String) (fee : FeeConfig) (aggr : Order)
    (lvlPrice : Int) (maker : Order) (rest : List Order) (remaining : Int)
    (tc : Nat) (idx : OrderIndex) (isBuy : Bool) (rest2 : List (Int × List Order))
    (hrem : 0 < remaining) :
    (remaining < maker.quantity →
      matchQueue sym fee aggr lvlPrice (maker :: rest) remaining tc idx =
        ⟨[mkTrade sym fee aggr lvlPrice remaining maker.order_id tc],
         { maker with quantity := maker.quantity - remaining } :: rest,
         remaining - remaining, tc + 1, idx⟩) ∧
    (maker.quantity ≤ remaining →
      matchQueue sym fee aggr lvlPrice (maker :: rest) remaining tc idx =
        ⟨mkTrade sym fee aggr lvlPrice maker.quantity maker.order_id tc ::
           (matchQueue sym fee aggr lvlPrice rest (remaining - maker.quantity) (tc + 1)
             (idxErase idx maker.order_id)).trades,
         (matchQueue sym fee aggr lvlPrice rest (remaining - maker.quantity) (tc + 1)
           (idxErase idx maker.order_id)).queue,
         (matchQueue sym fee aggr lvlPrice rest (remaining - maker.quantity) (tc + 1)
           (idxErase idx maker.order_id)).remaining,
         (matchQueue sym fee aggr lvlPrice rest (remaining - maker.quantity) (tc + 1)
           (idxErase idx maker.order_id)).tc,
         (matchQueue sym fee aggr lvlPrice rest (remaining - maker.quantity) (tc + 1)
           (idxErase idx maker.order_id)).idx⟩) ∧
    (¬(aggr.order_type = "limit" ∧
        (if isBuy then aggr.price < lvlPrice else lvlPrice < aggr.price)) →
      (matchQueue sym fee aggr lvlPrice (maker :: rest) remaining tc idx).queue = [] →
      matchBook sym fee aggr isBuy ((lvlPrice, maker :: rest) :: rest2) remaining tc idx =
        ⟨(matchQueue sym fee aggr lvlPrice (maker :: rest) remaining tc idx).trades ++
           (matchBook sym fee aggr isBuy rest2
             (matchQueue sym fee aggr lvlPrice (maker :: rest) remaining tc idx).remaining
             (matchQueue sym fee aggr lvlPrice (maker :: rest) remaining tc idx).tc
             (matchQueue sym fee aggr lvlPrice (maker :: rest) remaining tc idx).idx).trades,
         (matchBook sym fee aggr isBuy rest2
           (matchQueue sym fee aggr lvlPrice (maker :: rest) remaining tc idx).remaining
           (matchQueue sym fee aggr lvlPrice (maker :: rest) remaining tc idx).tc
           (matchQueue sym fee aggr lvlPrice (maker :: rest) remaining tc idx).idx).levels,
         (matchBook sym fee aggr isBuy rest2
           (matchQueue sym fee aggr lvlPrice (maker :: rest) remaining tc idx).remaining
           (matchQueue sym fee aggr lvlPrice (maker :: rest) remaining tc idx).tc
           (matchQueue sym fee aggr lvlPrice (maker :: rest) remaining tc idx).idx).remaining,
         (matchBook sym fee aggr isBuy rest2
           (matchQueue sym fee aggr lvlPrice (maker :: rest) remaining tc idx).remaining
           (matchQueue sym fee aggr lvlPrice (maker :: rest) remaining tc idx).tc
           (matchQueue sym fee aggr lvlPrice (maker :: rest) remaining tc idx).idx).tc,
         (matchBook sym fee aggr isBuy rest2
           (matchQueue sym fee aggr lvlPrice (maker :: rest) remaining tc idx).remaining
           (matchQueue sym fee aggr lvlPrice (maker :: rest) remaining tc idx).tc
           (matchQueue sym fee aggr lvlPrice (maker :: rest) remaining tc idx).idx).idx⟩) := by
  have h : ¬ remaining ≤ 0 := not_le.2 hrem
  refine ⟨?_, ?_, ?_⟩
  · intro hlt
    have h2' : 0 < maker.quantity - remaining := by omega
    simp only [matchQueue, if_neg h, min_eq_left (le_of_lt hlt), if_pos h2']
  · intro hle
    have h2' : ¬ 0 < maker.quantity - maker.quantity := by omega
    simp only [matchQueue, if_neg h, min_eq_right hle, if_neg h2']
  · intro hc hqe
    have hq : (matchQueue sym fee aggr lvlPrice (maker :: rest) remaining tc idx).queue.isEmpty =
        true := by
      rw [hqe]
      rfl
    simp only [matchBook, if_neg h, if_neg hc, if_pos hq]

/-- Closed witness for `C9_level_consumption`: a maker of 5 partially
filled by a taker of 3 stays at the head with quantity 2. -/
theorem C9_level_consumption_witness :
    (3 : Int) < (5 : Int) ∧
    matchQueue "SYM" defaultFeeConfig ⟨"B1", "SYM", "limit", "buy", 3, 100⟩ 100
        [⟨"S1", "SYM", "limit", "sell", 5, 100⟩] 3 1 [("S1", 100, false)] =
      ⟨[mkTrade "SYM" defaultFeeConfig ⟨"B1", "SYM", "limit", "buy", 3, 100⟩ 100 3 "S1" 1],
       [⟨"S1", "SYM", "limit", "sell", 2, 100⟩], 3 - 3, 2, [("S1", 100, false)]⟩ :=
  ⟨by decide,
   by
    have h := (C9_level_consumption "SYM" defaultFeeConfig
      ⟨"B1", "SYM", "limit", "buy", 3, 100⟩ 100 ⟨"S1", "SYM", "limit", "sell", 5, 100⟩
      [] 3 1 [("S1", 100, false)] true [] (by decide)).1 (by decide)
    rw [h]
    decide⟩

lemma replayStep_counters (e : Engine) (rec : WalRecord) :
    (replayStep e rec).total_orders = e.total_orders ∧
    (replayStep e rec).total_trades = e.total_trades := by
  cases rec with
  | order p =>
    by_cases hst : p.order_type = "stop" <;> simp [replayStep, hst]
  | trade t => exact ⟨rfl, rfl⟩
  | cancel oid =>
    simp only [replayStep]
    cases alistFind e.order_to_symbol oid <;> simp

lemma replayWal_counters (e : Engine) (recs : List WalRecord) :
    (replayWal e recs).total_orders = e.total_orders ∧
    (replayWal e recs).total_trades = e.total_trades := by
  induction recs generalizing e with
  | nil => exact ⟨rfl, rfl⟩
  | cons r rs ih =>
    have h1 := replayStep_counters e r
    have h2 := ih (replayStep e r)
    simp only [replayWal, List.foldl_cons] at *
    exact ⟨h2.1.trans h1.1, h2.2.trans h1.2⟩

/-- C8, amended: ids are `"ORD-<n>"`, `"STO-<n>"` and `"T-<n>"`, but the
`n` of ORD and STO ids is drawn from ONE shared counter
(`g_total_orders`), incremented once per accepted order or stop of any
kind, while trade ids have their own counter; and replay restores no
counter: `g_total_orders` and `g_total_trades` are left exactly as they
were before the replay pass, whatever the WAL contains. -/
theorem C8_amended :
    (∀ (e : Engine) (recs : List WalRecord),
        (replayWal e recs).total_orders = e.total_orders ∧
        (replayWal e recs).total_trades = e.total_trades) ∧
    (∀ (e : Engine) (req : OrderRequest),
        (submitOrder e req).order.order_id = "ORD-" ++ toString (e.total_orders + 1) ∧
        (submitOrder e req).engine.total_orders = e.total_orders + 1) ∧
    (∀ (e : Engine) (req : StopRequest),
        (submitStop e req).1 = "STO-" ++ toString (e.total_orders + 1) ∧
        (submitStop e req).2.total_orders = e.total_orders + 1) ∧
    (∀ tc : Nat, mkTradeId tc = "T-" ++ toString tc) := by
  refine ⟨replayWal_counters, fun e req => ⟨rfl, rfl⟩, fun e req => ⟨rfl, rfl⟩, fun tc => rfl⟩

/-- C5, counterexample.  The claim fixes `Q_SCALE = 10^6`; the code
divides by `10^8`.  At price 10^6 and quantity 10^6 with the default
(10, 20) basis points, the claim's formula yields a maker fee of 1000
while `calculate_fees` yields 10. -/
theorem C5_counterexample :
    (calculateFees defaultFeeConfig c5Trade).maker_fee = 10 ∧
    (feesSpecQ 1000000 defaultFeeConfig c5Trade).maker_fee = 1000 ∧
    calculateFees defaultFeeConfig c5Trade ≠ feesSpecQ 1000000 defaultFeeConfig c5Trade := by
  refine ⟨by decide, by decide, by decide⟩

/-- C5, amended: the fees are computed by exactly the claimed formula but
with divisor `10^8` (the product of the price scale 100 and the quantity
scale 10^6), not `10^6`: `notional = (price * quantity) / 10^8`,
`maker_fee = notional * maker_bps / 10000`,
`taker_fee = notional * taker_bps / 10000`, all in integer division
truncating toward zero, per individual trade. -/
theorem C5_amended : ∀ (fee : FeeConfig) (t : Trade),
    calculateFees fee t = feesSpecQ 100000000 fee t :=
  fun _ _ => rfl

/-- C6 (code bug).  `sell_stops_` is an ascending multimap (default
comparator), but the sell loop of `check_triggers` breaks at the FIRST
entry whose key fails `p ≤ key`, as if the map were descending.  With
sell stops at triggers 50 and 100, `check_triggers(80)` must, per the
claim, remove and return exactly the stop with trigger 100 ≥ 80; the code
sees key 50 first, fails `80 ≤ 50`, breaks, and returns nothing, leaving
the manager unchanged. -/
theorem C6_code_bug :
    c6Mgr.sell_stops.map Prod.fst = [50, 100] ∧
    (checkTriggers c6Mgr 80).1 = [] ∧
    (checkTriggers c6Mgr 80).2 = c6Mgr := by
  refine ⟨by decide, by decide, by decide⟩

/-- C7 (code bug).  `update_trailing_stops` mutates the stored
`StopOrder` in place through a `const_cast`: after the market prints
10000, the trailing stop's `trigger_price` field reads 9500 but its
multimap entry is still keyed by the stale 9000 (and the id-index still
maps to 9000), so the keyed-by-current-trigger invariant is broken and
`check_triggers(9400)` does not trigger it even though 9400 ≤ 9500. -/
theorem C7_code_bug :
    c7Mgr2.sell_stops.map Prod.fst = [9000] ∧
    c7Mgr2.sell_stops.map (fun e => e.2.trigger_price) = [9500] ∧
    sidxLookup c7Mgr2.order_index "TS-1" = some 9000 ∧
    (checkTriggers c7Mgr2 9400).1 = [] := by
  refine ⟨by decide, by decide, by decide, by decide⟩

/-- C8, counterexample.  After replaying a WAL whose maximal order number
is 5, the claim requires the next order id to be "ORD-6"; but replay never
touches `g_total_orders`, so the next order is numbered from the pristine
counter, "ORD-1" (colliding with logged history).  The first stop order
submitted afterwards gets "STO-2", drawn from the SAME counter as regular
orders, not "STO-1" from a per-kind counter. -/
theorem C8_counterexample :
    c8Engine.total_orders = 0 ∧
    c8Submit.order.order_id = "ORD-1" ∧
    (submitStop c8Submit.engine ⟨"SYM", "stop_loss", "buy", 5, 300, 0⟩).1 = "STO-2" := by
  refine ⟨by decide, by decide, by decide⟩

/-- C10.  Once the WAL's running flag is false, `append_json` — and with
it `append_order`, `append_trade` and `append_cancel` — returns
immediately: the producer queue, the total-entries counter and the log
file are unchanged, and no error reaches the caller (the functions are
total and return nothing): the record is silently dropped. -/
theorem C10_stopped_drop (w : WalState) (line : WalLine) (p q oid reason : String)
    (h : w.running = false) :
    appendJson w line = w ∧ appendOrder w p = w ∧ appendTrade w q = w ∧
    appendCancel w oid reason = w := by
  simp [appendJson, appendOrder, appendTrade, appendCancel, h]

/-- Closed witness for `C10_stopped_drop`. -/
theorem C10_stopped_drop_witness :
    WalState.running ⟨false, [], 0, []⟩ = false ∧
    appendJson ⟨false, [], 0, []⟩ (WalLine.order "x") = ⟨false, [], 0, []⟩ :=
  ⟨rfl, (C10_stopped_drop ⟨false, [], 0, []⟩ (WalLine.order "x") "x" "y" "o" "r" rfl).1⟩

end MatchingEngine
